import Mathlib

/-
Verification of the lobaro coap-go CoAP client library.

The development shallowly embeds the coapmsg binary codec
(message marshalling and parsing, option value coercions) and the
coap connection layer (interaction round trips, the receive loop,
interaction lookup and the token generator) as executable Lean
functions, and proves or refutes the specification claims about them.

Bytes are modelled as natural numbers; machine-integer casts of the
source (uint8, uint16, uint32) appear as explicit remainders.
-/

namespace CoapGo.coapmsg

/-! ## The coapmsg data model

A CoAP message, following the Message struct of message.go.  The
CoapOptions map from option id to the Option value list is modelled as
an association list with strictly ascending keys, the canonical
representation of the Go map (whose iteration the marshaller sorts by
id anyway).  An OptionValue is its byte slice. -/

abbrev CoapOptions := List (Nat × List (List Nat))

structure Msg where
  type_ : Nat
  code : Nat
  messageID : Nat
  token : List Nat
  options : CoapOptions
  payload : List Nat
deriving DecidableEq, Repr

/-- COAPType constants. -/
abbrev Confirmable : Nat := 0

abbrev NonConfirmable : Nat := 1

abbrev Acknowledgement : Nat := 2

abbrev Reset : Nat := 3

/-- The Empty COAPCode (0.00). -/
abbrev Empty : Nat := 0

/-- The Observe option id. -/
abbrev Observe : Nat := 6

/-- NewAck: an Acknowledgement with the Empty code, the given message
id, and zero token, options and payload. -/
def newAck (mid : Nat) : Msg :=
  ⟨Acknowledgement, Empty, mid, [], [], []⟩

/-- NewRst: a Reset with the Empty code and the given message id. -/
def newRst (mid : Nat) : Msg :=
  ⟨Reset, Empty, mid, [], [], []⟩

/-- CoapOptions.Add: append a value to the entry of the given id,
inserting the entry (keeping keys ascending) when it is absent. -/
def addOpt : CoapOptions → Nat → List Nat → CoapOptions
  | [], id, v => [(id, [v])]
  | (k, vs) :: rest, id, v =>
    if id = k then (k, vs ++ [v]) :: rest
    else if id < k then (id, [v]) :: (k, vs) :: rest
    else (k, vs) :: addOpt rest id v

/-- CoapOptions.Set: replace the entry of the given id with the single
value. -/
def setOpt : CoapOptions → Nat → List Nat → CoapOptions
  | [], id, v => [(id, [v])]
  | (k, vs) :: rest, id, v =>
    if id = k then (k, [v]) :: rest
    else if id < k then (id, [v]) :: (k, vs) :: rest
    else (k, vs) :: setOpt rest id v

/-- CoapOptions.Get: the value list stored for an id ([] when the id is
absent, matching the zero Option whose values slice is empty). -/
def getOpt (opts : CoapOptions) (id : Nat) : List (List Nat) :=
  match opts.find? (fun p => p.1 == id) with
  | some p => p.2
  | none => []

/-- Option.IsSet of the result of CoapOptions.Get: the stored Option has
its Id field equal to the map key, so IsSet holds exactly when the key
is present and non-zero. -/
def optIsSet (opts : CoapOptions) (id : Nat) : Bool :=
  (opts.find? (fun p => p.1 == id)).isSome && (id != 0)

/-- OptionValue.AsUInt8 on the first stored value: first byte, or 0 when
the option is absent or its value empty (Option.AsUInt8 composed with
OptionValue.AsUInt8). -/
def optAsUInt8 (opts : CoapOptions) (id : Nat) : Nat :=
  match getOpt opts id with
  | [] => 0
  | v :: _ =>
    match v with
    | [] => 0
    | b :: _ => b

/-! ## Integer option value coercions (coapoptions.go) -/

/-- encodeInt: big-endian shortest encoding of a uint32, zero as no
bytes.  Byte casts of the source are explicit remainders. -/
def encodeInt (v : Nat) : List Nat :=
  if v = 0 then []
  else if v < 256 then [v]
  else if v < 65536 then [(v >>> 8) % 256, v % 256]
  else if v < 16777216 then [(v >>> 16) % 256, (v >>> 8) % 256, v % 256]
  else [(v >>> 24) % 256, (v >>> 16) % 256, (v >>> 8) % 256, v % 256]

/-- decodeInt: the bytes right-aligned in a 4-byte buffer, read
big-endian (options.go). -/
def decodeInt (b : List Nat) : Nat :=
  beUint32 (List.replicate (4 - b.length) 0 ++ b)
where
  /-- binary.BigEndian.Uint32 on a 4-byte buffer. -/
  beUint32 (buf : List Nat) : Nat :=
    16777216 * buf.getD 0 0 + 65536 * buf.getD 1 0 + 256 * buf.getD 2 0 + buf.getD 3 0

/-- OptionValue.AsUInt32: empty is 0, otherwise the bytes are copied
into a zero 4-byte buffer from the left and read little-endian. -/
def asUInt32 (b : List Nat) : Nat :=
  match b with
  | [] => 0
  | _ =>
    leUint32 (padTo4 (b.take 4))
where
  padTo4 (l : List Nat) : List Nat := l ++ List.replicate (4 - l.length) 0
  /-- binary.LittleEndian.Uint32 on a 4-byte buffer. -/
  leUint32 (buf : List Nat) : Nat :=
    buf.getD 0 0 + 256 * buf.getD 1 0 + 65536 * buf.getD 2 0 + 16777216 * buf.getD 3 0

/-- Option.AsUInt32 of the result of CoapOptions.Get. -/
def optAsUInt32 (opts : CoapOptions) (id : Nat) : Nat :=
  match getOpt opts id with
  | [] => 0
  | v :: _ => asUInt32 v

/-! ## Marshalling (message.go, MustMarshalBinary) -/

/-- extendOpt: split a delta or length into its nibble code and the
extended value (13 with one extra byte, 14 with two). -/
def extendOpt (opt : Nat) : Nat × Nat :=
  if opt ≥ 13 then
    if opt ≥ 269 then (14, opt - 269)
    else (13, opt - 13)
  else (opt, 0)

/-- writeExt: the extended bytes for a nibble code (one byte for 13, a
big-endian uint16 for 14, nothing otherwise). -/
def writeExt (opt ext : Nat) : List Nat :=
  if opt = 13 then [ext % 256]
  else if opt = 14 then [(ext % 65536) >>> 8, (ext % 65536) % 256]
  else []

/-- writeOptHeader: delta and length nibbles packed into one byte,
followed by their extended bytes. -/
def writeOptHeader (delta length : Nat) : List Nat :=
  (((extendOpt delta).1 <<< 4) % 256 ||| (extendOpt length).1 % 256) ::
    (writeExt (extendOpt delta).1 (extendOpt delta).2 ++
      writeExt (extendOpt length).1 (extendOpt length).2)

/-- The iteration order of the option loop of MustMarshalBinary: ids in
ascending order (the sort of the map keys), each id's values in stored
order. -/
def flattenOpts (opts : CoapOptions) : List (Nat × List Nat) :=
  opts.flatMap (fun p => p.2.map (fun v => (p.1, v)))

/-- The option section bytes: each value is emitted with the delta from
the previously written option id. -/
def encodePairs : Nat → List (Nat × List Nat) → List Nat
  | _, [] => []
  | prev, (id, v) :: rest =>
    writeOptHeader (id - prev) v.length ++ v ++ encodePairs id rest

/-- MustMarshalBinary: 4-byte header (version 1, type, token-length
nibble, code, big-endian message id), token bytes, option section, and
the 0xff marker plus payload when the payload is non-empty.  Total for
every Msg; the token-length nibble keeps only the low 4 bits of the
token length. -/
def mustMarshalBinary (m : Msg) : List Nat :=
  ((1 <<< 6) ||| ((m.type_ % 256) <<< 4) % 256 ||| (m.token.length &&& 15)) ::
    m.code % 256 ::
    ((m.messageID % 65536) >>> 8) ::
    ((m.messageID % 65536) % 256) ::
    (m.token ++
      encodePairs 0 (flattenOpts m.options) ++
      (if m.payload.isEmpty then [] else 255 :: m.payload))

/-! ## Parsing (message.go, UnmarshalBinary / ParseMessage) -/

/-- The error values returned by UnmarshalBinary. -/
inductive CoapErr where
  | shortPacket
  | invalidVersion
  | invalidTokenLen
  | truncated
  | extOptionMarker
  | zeroLenPayload
  | criticalOptionLen
  | fuelExhausted
deriving DecidableEq, Repr

/-- optionDefs (optionDef.go): MinLength and MaxLength per known option
id; none for ids absent from the map. -/
def optionDefs (id : Nat) : Option (Nat × Nat) :=
  if id = 1 then some (0, 8)          -- IfMatch, opaque
  else if id = 3 then some (1, 255)   -- URIHost, string
  else if id = 4 then some (1, 8)     -- ETag, opaque
  else if id = 5 then some (0, 0)     -- IfNoneMatch, empty
  else if id = 6 then some (0, 3)     -- Observe, uint
  else if id = 7 then some (0, 2)     -- URIPort, uint
  else if id = 8 then some (0, 255)   -- LocationPath, string
  else if id = 11 then some (0, 255)  -- URIPath, string
  else if id = 12 then some (0, 2)    -- ContentFormat, uint
  else if id = 14 then some (0, 4)    -- MaxAge, uint
  else if id = 15 then some (0, 255)  -- URIQuery, string
  else if id = 17 then some (0, 2)    -- Accept, uint
  else if id = 20 then some (0, 255)  -- LocationQuery, string
  else if id = 35 then some (1, 1034) -- ProxyURI, string
  else if id = 39 then some (1, 255)  -- ProxyScheme, string
  else if id = 60 then some (0, 4)    -- Size1, uint
  else none

/-- parseExtOpt: read the extended delta or length bytes for a nibble
code, returning the decoded value and the remaining input. -/
def parseExtOpt (opt : Nat) (b : List Nat) : Except CoapErr (Nat × List Nat) :=
  if opt = 13 then
    match b with
    | [] => .error .truncated
    | x :: rest => .ok (x + 13, rest)
  else if opt = 14 then
    match b with
    | x :: y :: rest => .ok (((x <<< 8) ||| y) + 269, rest)
    | _ => .error .truncated
  else .ok (opt, b)

/-- The option loop of UnmarshalBinary.  Each iteration consumes at
least one byte, so the fuel argument, instantiated with the input
length, never runs out; it only makes the recursion structural. -/
def parseOptions (fuel prev : Nat) (opts : CoapOptions) (b : List Nat) :
    Except CoapErr (CoapOptions × List Nat) :=
  match b with
  | [] => .ok (opts, [])
  | b0 :: rest =>
    match fuel with
    | 0 => .error .fuelExhausted
    | fuel + 1 =>
      if b0 = 255 then
        -- a payload marker followed by nothing is a format error
        if rest.isEmpty then .error .zeroLenPayload
        else .ok (opts, rest)
      else
        let delta0 := b0 >>> 4
        let len0 := b0 &&& 15
        if delta0 = 15 ∨ len0 = 15 then .error .extOptionMarker
        else
          match parseExtOpt delta0 rest with
          | .error e => .error e
          | .ok (delta, b2) =>
            match parseExtOpt len0 b2 with
            | .error e => .error e
            | .ok (len, b3) =>
              if b3.length < len then .error .truncated
              else
                -- the uint16 OptionId cast
                let oid := (prev + delta) % 65536
                let val := b3.take len
                match optionDefs oid with
                | some (minLen, maxLen) =>
                  if val.length < minLen ∨ maxLen < val.length then
                    if oid % 2 = 1 then .error .criticalOptionLen
                    else parseOptions fuel oid opts (b3.drop len)
                  else parseOptions fuel oid (addOpt opts oid val) (b3.drop len)
                | none => parseOptions fuel oid (addOpt opts oid val) (b3.drop len)

/-- ParseMessage (UnmarshalBinary on a fresh message): header checks
(length, version, token length), then token, options and payload. -/
def parseMessage (data : List Nat) : Except CoapErr Msg :=
  match data with
  | b0 :: b1 :: b2 :: b3 :: rest =>
    if b0 >>> 6 ≠ 1 then .error .invalidVersion
    else
      let mtype := (b0 >>> 4) &&& 3
      let tokenLen := b0 &&& 15
      if tokenLen > 8 then .error .invalidTokenLen
      else if rest.length < tokenLen then .error .truncated
      else
        let token := rest.take tokenLen
        let b := rest.drop tokenLen
        match parseOptions b.length 0 [] b with
        | .error e => .error e
        | .ok (opts, payload) =>
          .ok ⟨mtype, b1, (b2 <<< 8) ||| b3, token, opts, payload⟩
  | _ => .error .shortPacket

/-! ## Validity: the section 3 invariants of the specification -/

/-- The value length fits the option definition, and (for every id)
fits what one option length field can carry; the second bound is
implied by the definitions, whose maximum length is at most 1034. -/
def lenOkb (id : Nat) (v : List Nat) : Bool :=
  decide (v.length < 65805) &&
    match optionDefs id with
    | some (minLen, maxLen) => decide (minLen ≤ v.length) && decide (v.length ≤ maxLen)
    | none => true

/-- A message satisfying the data model invariants: a 2-bit type, byte
code, uint16 message id, token of at most 8 bytes, and an options map
with ascending uint16 keys, non-empty value lists, and value lengths
within the option definitions. -/
def msgValid (m : Msg) : Prop :=
  m.type_ < 4 ∧ m.code < 256 ∧ m.messageID < 65536 ∧ m.token.length ≤ 8 ∧
    List.Pairwise (fun a b => a.1 < b.1) m.options ∧
    ∀ p ∈ m.options, p.1 < 65536 ∧ p.2 ≠ [] ∧ ∀ v ∈ p.2, lenOkb p.1 v = true

instance (m : Msg) : Decidable (msgValid m) := by
  unfold msgValid
  infer_instance

/-- The chain invariant the encoded option pairs satisfy relative to the
previously written id. -/
def chainOk : Nat → List (Nat × List Nat) → Prop
  | _, [] => True
  | prev, (id, v) :: rest => prev ≤ id ∧ id < 65536 ∧ lenOkb id v = true ∧ chainOk id rest

/-- Folding CoapOptions.Add over a pair list. -/
def addAll (acc : CoapOptions) : List (Nat × List Nat) → CoapOptions
  | [] => acc
  | (id, v) :: rest => addAll (addOpt acc id v) rest

/-- The id of the last pair, or the seed when there is none. -/
def lastIdFrom (prev : Nat) : List (Nat × List Nat) → Nat
  | [] => prev
  | (id, _) :: rest => lastIdFrom id rest

end CoapGo.coapmsg

namespace CoapGo.coap

open CoapGo.coapmsg

/-! ## Interaction.RoundTrip (interaction.go)

The round trip is modelled as a function of the request message and the
list of messages the interaction's receive channel delivers, in order.
A read takes the next message of the list; an empty list means the read
times out.  The trace records the returned value, every message given
to sendMessage, the timeout used by each read, and whether the
notification channel was created and waitForNotify spawned. -/

inductive RTimeout where
  | ackTimeout
  | postponedResponse
deriving DecidableEq, Repr

inductive RTErr where
  | readAckFail
  | ackMsgIdMismatch
  | expectedAck
  | postponedReadFail
  | expectedConOrNon
  | readNonFail
  | nonMsgIdMismatch
  | expectedNon
  | tokenMismatch
deriving DecidableEq, Repr

inductive RTOutcome where
  | ok (res : Msg)
  | err (e : RTErr)
  | panicked
deriving DecidableEq, Repr

structure RTTrace where
  result : RTOutcome
  sent : List Msg
  reads : List RTimeout
  pumpSpawned : Bool
deriving DecidableEq, Repr

/-- The tail of RoundTrip after the type branches: the observe
detection, then validateToken, then the return.  The response variable
is none on the NonConfirmable path, where the reply was bound to a
shadowing local: both the observe detection and validateToken then
dereference a nil pointer, a run-time panic. -/
def finishRT (reqMsg : Msg) (resMsg : Option Msg) (sent : List Msg)
    (reads : List RTimeout) : RTTrace :=
  if optAsUInt8 reqMsg.options Observe = 0 then
    match resMsg with
    | none => ⟨.panicked, sent, reads, false⟩
    | some r =>
      if optIsSet r.options Observe then
        if reqMsg.token = r.token then ⟨.ok r, sent, reads, true⟩
        else ⟨.err .tokenMismatch, sent, reads, true⟩
      else
        if reqMsg.token = r.token then ⟨.ok r, sent, reads, false⟩
        else ⟨.err .tokenMismatch, sent, reads, false⟩
  else
    match resMsg with
    | none => ⟨.panicked, sent, reads, false⟩
    | some r =>
      if reqMsg.token = r.token then ⟨.ok r, sent, reads, false⟩
      else ⟨.err .tokenMismatch, sent, reads, false⟩

/-- Interaction.RoundTrip.  The request is sent first.  A Confirmable
request reads the ACK under the ack timeout, validates message id and
type, and either takes the piggybacked response or, on an Empty code,
reads the separate response under the postponed-response timeout,
requiring CON or NON and acknowledging a CON.  A NonConfirmable request
reads and validates the NON reply but binds it to a shadowing local.
Any other request type panics. -/
def roundTrip (reqMsg : Msg) (inbox : List Msg) : RTTrace :=
  let sent0 := [reqMsg]
  if reqMsg.type_ = Confirmable then
    match inbox with
    | [] => ⟨.err .readAckFail, sent0, [.ackTimeout], false⟩
    | m :: rest =>
      if reqMsg.messageID ≠ m.messageID then
        ⟨.err .ackMsgIdMismatch, sent0, [.ackTimeout], false⟩
      else if m.type_ ≠ Acknowledgement then
        ⟨.err .expectedAck, sent0, [.ackTimeout], false⟩
      else if m.code = coapmsg.Empty then
        match rest with
        | [] => ⟨.err .postponedReadFail, sent0, [.ackTimeout, .postponedResponse], false⟩
        | m2 :: _ =>
          if m2.type_ ≠ Confirmable ∧ m2.type_ ≠ NonConfirmable then
            ⟨.err .expectedConOrNon, sent0, [.ackTimeout, .postponedResponse], false⟩
          else if m2.type_ = Confirmable then
            finishRT reqMsg (some m2) (sent0 ++ [newAck m2.messageID])
              [.ackTimeout, .postponedResponse]
          else
            finishRT reqMsg (some m2) sent0 [.ackTimeout, .postponedResponse]
      else
        -- the reply is an ACK with a non-Empty code: piggybacked
        -- response, no further read and no acknowledgement
        finishRT reqMsg (some m) sent0 [.ackTimeout]
  else if reqMsg.type_ = NonConfirmable then
    match inbox with
    | [] => ⟨.err .readNonFail, sent0, [.ackTimeout], false⟩
    | m :: _ =>
      if reqMsg.messageID ≠ m.messageID then
        ⟨.err .nonMsgIdMismatch, sent0, [.ackTimeout], false⟩
      else if m.type_ ≠ NonConfirmable then
        ⟨.err .expectedNon, sent0, [.ackTimeout], false⟩
      else
        finishRT reqMsg none sent0 [.ackTimeout]
  else ⟨.panicked, sent0, [], false⟩

/-! ## The Connection receive loop (connection.go, connection_uart.go) -/

/-- The per-interaction state FindInteraction inspects. -/
structure IAState where
  token : List Nat
  lastMessageId : Nat
deriving DecidableEq, Repr

/-- FindInteraction walks the registered interactions in order; an
interaction matches by token byte-equality, or, for an empty inbound
token, by its last message id.  The result is the index of the first
match. -/
def findInteractionFrom (i : Nat) : List IAState → List Nat → Nat → Option Nat
  | [], _, _ => none
  | ia :: rest, token, msgId =>
    if ia.token = token then some i
    else if token = [] ∧ ia.lastMessageId = msgId then some i
    else findInteractionFrom (i + 1) rest token msgId

def findInteraction (ias : List IAState) (token : List Nat) (msgId : Nat) : Option Nat :=
  findInteractionFrom 0 ias token msgId

/-- What a run of the receive loop did: deliveries to interactions (by
index), RSTs sent, whether the loop returned early on an error, and
whether the connection was closed by the loop. -/
structure LoopTrace where
  delivered : List (Nat × Msg)
  sent : List Msg
  exited : Bool
  connClosed : Bool
deriving DecidableEq, Repr

/-- receiveLoop of connection.go over a finite packet sequence: empty
packets are skipped inside readMessage; a packet that fails to parse
makes readMessage return an error and the loop return; otherwise the
message is routed by FindInteraction, delivered on a match and answered
with a RST when unmatched. -/
def receiveLoop (ias : List IAState) : List (List Nat) → LoopTrace
  | [] => ⟨[], [], false, false⟩
  | p :: rest =>
    if p.isEmpty then receiveLoop ias rest
    else
      match parseMessage p with
      | .error _ => ⟨[], [], true, false⟩
      | .ok msg =>
        let t := receiveLoop ias rest
        match findInteraction ias msg.token msg.messageID with
        | none => ⟨t.delivered, newRst msg.messageID :: t.sent, t.exited, t.connClosed⟩
        | some i => ⟨(i, msg) :: t.delivered, t.sent, t.exited, t.connClosed⟩

/-- startReceiveLoop of connection_uart.go: as receiveLoop, but a
receive error additionally closes the connection before returning. -/
def startReceiveLoop (ias : List IAState) : List (List Nat) → LoopTrace
  | [] => ⟨[], [], false, false⟩
  | p :: rest =>
    if p.isEmpty then startReceiveLoop ias rest
    else
      match parseMessage p with
      | .error _ => ⟨[], [], true, true⟩
      | .ok msg =>
        let t := startReceiveLoop ias rest
        match findInteraction ias msg.token msg.messageID with
        | none => ⟨t.delivered, newRst msg.messageID :: t.sent, t.exited, t.connClosed⟩
        | some i => ⟨(i, msg) :: t.delivered, t.sent, t.exited, t.connClosed⟩

/-! ## RandomTokenGenerator (token.go) -/

/-- NextToken: four random bytes with byte 0 overwritten by the
incremented uint8 sequence counter; returns the token and the new
counter.  The three remaining random bytes are the generator's random
source output for this call. -/
def nextToken (lastTokenSeq r1 r2 r3 : Nat) : List Nat × Nat :=
  let seq := (lastTokenSeq + 1) % 256
  ([seq, r1, r2, r3], seq)

/-- The sequence counter after n calls of a generator that started at
zero. -/
def genStateAfter : Nat → Nat
  | 0 => 0
  | n + 1 => (genStateAfter n + 1) % 256

/-- The token produced by call number i (counting from 0) with the
given random bytes. -/
def tokenOfCall (i : Nat) (r1 r2 r3 : Nat) : List Nat :=
  (nextToken (genStateAfter i) r1 r2 r3).1

end CoapGo.coap

namespace CoapGo

/-! ## Arithmetic toolkit for byte and nibble manipulation -/

theorem testBit_false_of_lt {y : Nat} {i : Nat} (h : y < 2 ^ i) :
    y.testBit i = false := by
  rw [Nat.testBit_to_div_mod, Nat.div_eq_of_lt h]
  simp

/-- Bitwise or of a left-shifted value with a small value is addition:
the bit ranges are disjoint. -/
theorem shiftLeft_lor_eq_add (x y k : Nat) (h : y < 2 ^ k) :
    (x <<< k) ||| y = (x <<< k) + y := by
  apply Nat.eq_of_testBit_eq
  intro i
  rw [Nat.testBit_lor, Nat.testBit_shiftLeft, Nat.shiftLeft_eq]
  rcases Nat.lt_or_ge i k with hik | hik
  · have hd : decide (i ≥ k) = false := by simp; omega
    rw [hd]
    simp only [Bool.false_and, Bool.false_or]
    rw [Nat.testBit_to_div_mod, Nat.testBit_to_div_mod]
    have hsplit : 2 ^ k = 2 ^ i * 2 ^ (k - i) := by
      rw [← pow_add]
      congr 1
      omega
    have h1 : (x * 2 ^ k + y) / 2 ^ i = x * 2 ^ (k - i) + y / 2 ^ i := by
      rw [hsplit, ← Nat.mul_assoc, Nat.mul_comm x (2 ^ i), Nat.mul_assoc,
        Nat.mul_add_div (Nat.two_pow_pos i)]
    rw [h1]
    have h2 : (x * 2 ^ (k - i) + y / 2 ^ i) % 2 = (y / 2 ^ i) % 2 := by
      have hki : k - i = (k - i - 1) + 1 := by omega
      rw [hki, pow_succ]
      rw [show x * (2 ^ (k - i - 1) * 2) = 2 * (x * 2 ^ (k - i - 1)) by ring]
      rw [Nat.mul_add_mod]
    rw [h2]
  · have hd : decide (i ≥ k) = true := by simp; omega
    rw [hd]
    have hy : y.testBit i = false := by
      apply testBit_false_of_lt
      calc y < 2 ^ k := h
        _ ≤ 2 ^ i := Nat.pow_le_pow_right (by omega) hik
    rw [hy]
    simp only [Bool.true_and, Bool.or_false]
    rw [Nat.testBit_to_div_mod, Nat.testBit_to_div_mod]
    have hsplit : 2 ^ i = 2 ^ k * 2 ^ (i - k) := by
      rw [← pow_add]
      congr 1
      omega
    have h1 : (x * 2 ^ k + y) / 2 ^ i = x / 2 ^ (i - k) := by
      rw [hsplit, ← Nat.div_div_eq_div_mul, Nat.mul_comm x (2 ^ k),
        Nat.mul_add_div (Nat.two_pow_pos k), Nat.div_eq_of_lt h, Nat.add_zero]
    rw [h1]

theorem lor_sixteen_mul_add (x y : Nat) (h : y < 16) :
    (x <<< 4) ||| y = 16 * x + y := by
  rw [shiftLeft_lor_eq_add x y 4 (by omega), Nat.shiftLeft_eq]
  ring

theorem lor_two_fifty_six_mul_add (x y : Nat) (h : y < 256) :
    (x <<< 8) ||| y = 256 * x + y := by
  rw [shiftLeft_lor_eq_add x y 8 (by omega), Nat.shiftLeft_eq]
  ring

theorem and_fifteen_eq_mod (x : Nat) : x &&& 15 = x % 16 := by
  simpa using Nat.and_pow_two_sub_one_eq_mod x 4

theorem and_three_eq_mod (x : Nat) : x &&& 3 = x % 4 := by
  simpa using Nat.and_pow_two_sub_one_eq_mod x 2

theorem shiftRight_four_eq_div (x : Nat) : x >>> 4 = x / 16 := by
  rw [Nat.shiftRight_eq_div_pow]

theorem shiftRight_six_eq_div (x : Nat) : x >>> 6 = x / 64 := by
  rw [Nat.shiftRight_eq_div_pow]

theorem shiftRight_eight_eq_div (x : Nat) : x >>> 8 = x / 256 := by
  rw [Nat.shiftRight_eq_div_pow]

end CoapGo

namespace CoapGo.coapmsg

theorem getOpt_setOpt (opts : CoapOptions) (id : Nat) (v : List Nat) :
    getOpt (setOpt opts id v) id = [v] := by
  induction opts with
  | nil => simp [setOpt, getOpt]
  | cons p rest ih =>
    obtain ⟨k, vs⟩ := p
    by_cases hk : id = k
    · subst hk
      simp [setOpt, getOpt]
    · by_cases hlt : id < k
      · simp [setOpt, hk, hlt, getOpt]
      · simp only [setOpt, if_neg hk, if_neg hlt]
        simpa [getOpt, Ne.symm hk] using ih

theorem asUInt32_encodeInt (v : Nat) (hv : v < 4294967296) :
    asUInt32 (encodeInt v) = decodeInt (encodeInt v).reverse ∧
    (v < 256 → asUInt32 (encodeInt v) = v) := by
  by_cases h0 : v = 0
  · subst h0
    simp [encodeInt, asUInt32, decodeInt, decodeInt.beUint32]
  · by_cases h1 : v < 256
    · simp [encodeInt, h0, h1, asUInt32, asUInt32.padTo4, asUInt32.leUint32,
        decodeInt, decodeInt.beUint32]
    · by_cases h2 : v < 65536
      · simp only [encodeInt, if_neg h0, if_neg h1, if_pos h2,
          shiftRight_eight_eq_div, asUInt32, asUInt32.padTo4, asUInt32.leUint32,
          decodeInt, decodeInt.beUint32, List.reverse_cons, List.reverse_nil]
        constructor
        · simp
          omega
        · omega
      · by_cases h3 : v < 16777216
        · simp only [encodeInt, if_neg h0, if_neg h1, if_neg h2, if_pos h3,
            shiftRight_eight_eq_div, Nat.shiftRight_eq_div_pow, asUInt32,
            asUInt32.padTo4, asUInt32.leUint32, decodeInt, decodeInt.beUint32,
            List.reverse_cons, List.reverse_nil]
          constructor
          · simp
            omega
          · omega
        · simp only [encodeInt, if_neg h0, if_neg h1, if_neg h2, if_neg h3,
            Nat.shiftRight_eq_div_pow, asUInt32, asUInt32.padTo4,
            asUInt32.leUint32, decodeInt, decodeInt.beUint32,
            List.reverse_cons, List.reverse_nil]
          constructor
          · simp
            omega
          · omega

/-! ## Claim C9 -/

/-- Claim C9: integer option values are stored by Set in the shortest
big-endian form (zero as zero bytes), but AsUInt32 reads the stored
bytes little-endian; a Set of a uint32 v followed by Get and AsUInt32
therefore returns v itself exactly for v below 256, and for wider
values returns the stored byte sequence read in reverse (the
byte-reversed value, here expressed as the big-endian decodeInt of the
reversed encoding). -/
theorem claim_C9 (opts : CoapOptions) (id v : Nat) (hv : v < 4294967296) :
    (v < 256 → optAsUInt32 (setOpt opts id (encodeInt v)) id = v) ∧
    optAsUInt32 (setOpt opts id (encodeInt v)) id = decodeInt (encodeInt v).reverse := by
  have hget : optAsUInt32 (setOpt opts id (encodeInt v)) id = asUInt32 (encodeInt v) := by
    unfold optAsUInt32
    rw [getOpt_setOpt]
  rw [hget]
  obtain ⟨h1, h2⟩ := asUInt32_encodeInt v hv
  exact ⟨h2, h1⟩

theorem claim_C9_witness :
    ((258 : Nat) < 256 → optAsUInt32 (setOpt [] 14 (encodeInt 258)) 14 = 258) ∧
    optAsUInt32 (setOpt [] 14 (encodeInt 258)) 14 = decodeInt (encodeInt 258).reverse :=
  claim_C9 [] 14 258 (by decide)

/-! ## Claim C10 -/

/-- Claim C10: MustMarshalBinary is total (it is a plain function into
byte lists and returns a wire image for every message, with no
validation).  Its token-length nibble keeps only the low 4 bits of the
token length, while the token is appended in full after the 4-byte
header, so a token longer than 15 bytes yields a wire image whose
declared and actual token lengths disagree. -/
theorem claim_C10 (m : Msg) :
    4 + m.token.length ≤ (mustMarshalBinary m).length ∧
    (mustMarshalBinary m).headD 0 &&& 15 = m.token.length &&& 15 ∧
    ((mustMarshalBinary m).drop 4).take m.token.length = m.token ∧
    (15 < m.token.length → (mustMarshalBinary m).headD 0 &&& 15 ≠ m.token.length) := by
  refine ⟨?_, ?_, ?_, ?_⟩
  · simp [mustMarshalBinary]
    omega
  · show ((1 <<< 6) ||| ((m.type_ % 256) <<< 4) % 256 ||| (m.token.length &&& 15)) &&& 15
      = m.token.length &&& 15
    rw [Nat.and_distrib_right, Nat.and_distrib_right]
    have h1 : (1 <<< 6 : Nat) &&& 15 = 0 := by decide
    have h2 : ((m.type_ % 256) <<< 4) % 256 &&& 15 = 0 := by
      rw [and_fifteen_eq_mod, Nat.mod_mod_of_dvd _ (by norm_num), Nat.shiftLeft_eq]
      omega
    have h3 : m.token.length &&& 15 &&& 15 = m.token.length &&& 15 := by
      rw [and_fifteen_eq_mod (m.token.length &&& 15), and_fifteen_eq_mod,
        Nat.mod_mod_of_dvd _ (by norm_num)]
    rw [h1, h2, h3, Nat.zero_or, Nat.zero_or]
  · have hdrop : (mustMarshalBinary m).drop 4 =
        m.token ++ (encodePairs 0 (flattenOpts m.options) ++
          (if m.payload.isEmpty then [] else 255 :: m.payload)) := by
      simp [mustMarshalBinary]
    rw [hdrop, List.take_left]
  · intro hlen
    rw [and_fifteen_eq_mod]
    omega

theorem claim_C10_witness :
    4 + 16 ≤ (mustMarshalBinary ⟨0, 1, 1, List.replicate 16 7, [], []⟩).length ∧
    (mustMarshalBinary ⟨0, 1, 1, List.replicate 16 7, [], []⟩).headD 0 &&& 15 = 16 &&& 15 ∧
    ((mustMarshalBinary ⟨0, 1, 1, List.replicate 16 7, [], []⟩).drop 4).take 16 =
      List.replicate 16 7 ∧
    (15 < 16 →
      (mustMarshalBinary ⟨0, 1, 1, List.replicate 16 7, [], []⟩).headD 0 &&& 15 ≠ 16) :=
  claim_C10 ⟨0, 1, 1, List.replicate 16 7, [], []⟩

/-! ## Claim C5 -/

/-- Claim C5 counterexample: ParseMessage accepts a message whose code
is Empty but whose token-length nibble is 1 (input 0x41 00 00 01 AB),
and a message whose code class is 1 (input 0x40 20 00 01, code 0x20);
the claim requires an error for both. -/
theorem claim_C5_counterexample :
    parseMessage [0x41, 0, 0, 1, 0xAB] = .ok ⟨0, 0, 1, [0xAB], [], []⟩ ∧
    parseMessage [0x40, 0x20, 0, 1] = .ok ⟨0, 0x20, 1, [], [], []⟩ :=
  ⟨rfl, rfl⟩

/-- Claim C5 (amended): ParseMessage returns an error for every input
shorter than 4 bytes, for a version field other than 1, and for a
token-length nibble greater than 8; it performs no check of the code
class and no check of the Empty code against token or trailing bytes. -/
theorem claim_C5_amended :
    (∀ data : List Nat, data.length < 4 → parseMessage data = .error .shortPacket) ∧
    (∀ b0 b1 b2 b3 : Nat, ∀ rest : List Nat, b0 >>> 6 ≠ 1 →
      parseMessage (b0 :: b1 :: b2 :: b3 :: rest) = .error .invalidVersion) ∧
    (∀ b0 b1 b2 b3 : Nat, ∀ rest : List Nat, b0 >>> 6 = 1 → 8 < b0 &&& 15 →
      parseMessage (b0 :: b1 :: b2 :: b3 :: rest) = .error .invalidTokenLen) := by
  refine ⟨?_, ?_, ?_⟩
  · intro data hlen
    match data with
    | [] => rfl
    | [_] => rfl
    | [_, _] => rfl
    | [_, _, _] => rfl
    | _ :: _ :: _ :: _ :: _ => simp at hlen; omega
  · intro b0 b1 b2 b3 rest hver
    simp [parseMessage, hver]
  · intro b0 b1 b2 b3 rest hver htkl
    simp [parseMessage, hver, htkl]

theorem claim_C5_witness :
    parseMessage [1, 2, 3] = .error .shortPacket ∧
    parseMessage [0x81, 0, 0, 1] = .error .invalidVersion ∧
    parseMessage [0x49, 0, 0, 1, 1, 2, 3, 4, 5, 6, 7, 8, 9] = .error .invalidTokenLen :=
  ⟨claim_C5_amended.1 [1, 2, 3] (by decide),
    claim_C5_amended.2.1 0x81 0 0 1 [] (by decide),
    claim_C5_amended.2.2 0x49 0 0 1 [1, 2, 3, 4, 5, 6, 7, 8, 9] (by decide) (by decide)⟩

/-! ## Claim C1: the codec round trip

Parsing the bytes produced by MustMarshalBinary recovers the message
exactly, for every message satisfying the data model invariants. -/

theorem extendOpt_fst_le (o : Nat) : (extendOpt o).1 ≤ 14 := by
  unfold extendOpt
  split_ifs <;> dsimp only <;> omega

theorem lenOkb_lt (id : Nat) (v : List Nat) (h : lenOkb id v = true) :
    v.length < 65805 := by
  unfold lenOkb at h
  simp only [Bool.and_eq_true, decide_eq_true_eq] at h
  exact h.1

theorem parseExtOpt_writeExt (o : Nat) (ho : o < 65805) (rest : List Nat) :
    parseExtOpt (extendOpt o).1 (writeExt (extendOpt o).1 (extendOpt o).2 ++ rest) =
      .ok (o, rest) := by
  by_cases h269 : 269 ≤ o
  · have h1 : extendOpt o = (14, o - 269) := by
      unfold extendOpt
      rw [if_pos (by omega), if_pos h269]
    rw [h1]
    have he : (o - 269) % 65536 = o - 269 := Nat.mod_eq_of_lt (by omega)
    show parseExtOpt 14 (writeExt 14 (o - 269) ++ rest) = .ok (o, rest)
    unfold writeExt
    rw [if_neg (by decide), if_pos rfl, he]
    show parseExtOpt 14 (((o - 269) >>> 8) :: ((o - 269) % 256) :: rest) = .ok (o, rest)
    unfold parseExtOpt
    rw [if_neg (by decide), if_pos rfl]
    dsimp only
    rw [shiftRight_eight_eq_div, lor_two_fifty_six_mul_add _ _ (by omega)]
    have : 256 * ((o - 269) / 256) + (o - 269) % 256 + 269 = o := by omega
    rw [this]
  · by_cases h13 : 13 ≤ o
    · have h1 : extendOpt o = (13, o - 13) := by
        unfold extendOpt
        rw [if_pos h13, if_neg h269]
      rw [h1]
      have he : (o - 13) % 256 = o - 13 := Nat.mod_eq_of_lt (by omega)
      show parseExtOpt 13 (writeExt 13 (o - 13) ++ rest) = .ok (o, rest)
      unfold writeExt
      rw [if_pos rfl, he]
      show parseExtOpt 13 ((o - 13) :: rest) = .ok (o, rest)
      unfold parseExtOpt
      rw [if_pos rfl]
      dsimp only
      have : o - 13 + 13 = o := by omega
      rw [this]
    · have h1 : extendOpt o = (o, 0) := by
        unfold extendOpt
        rw [if_neg h13]
      rw [h1]
      show parseExtOpt o (writeExt o 0 ++ rest) = .ok (o, rest)
      unfold writeExt
      rw [if_neg (by omega), if_neg (by omega)]
      show parseExtOpt o rest = .ok (o, rest)
      unfold parseExtOpt
      rw [if_neg (by omega), if_neg (by omega)]

/-- One step of the option loop across one encoded option. -/
theorem parseOptions_step (fuel prev id : Nat) (v : List Nat) (acc : CoapOptions)
    (rest : List Nat) (hple : prev ≤ id) (hid : id < 65536)
    (hlen : lenOkb id v = true) :
    parseOptions (fuel + 1) prev acc (writeOptHeader (id - prev) v.length ++ v ++ rest) =
      parseOptions fuel id (addOpt acc id v) rest := by
  have hd14 := extendOpt_fst_le (id - prev)
  have hl14 := extendOpt_fst_le v.length
  have hvlt : v.length < 65805 := lenOkb_lt id v hlen
  have hdlt : id - prev < 65805 := by omega
  have hbyte : ((extendOpt (id - prev)).1 <<< 4) % 256 ||| (extendOpt v.length).1 % 256 =
      16 * (extendOpt (id - prev)).1 + (extendOpt v.length).1 := by
    rw [Nat.shiftLeft_eq]
    have h1 : (extendOpt (id - prev)).1 * 2 ^ 4 % 256 = (extendOpt (id - prev)).1 * 2 ^ 4 :=
      Nat.mod_eq_of_lt (by omega)
    have h2 : (extendOpt v.length).1 % 256 = (extendOpt v.length).1 :=
      Nat.mod_eq_of_lt (by omega)
    rw [h1, h2, show (extendOpt (id - prev)).1 * 2 ^ 4 =
      (extendOpt (id - prev)).1 <<< 4 from (Nat.shiftLeft_eq _ _).symm,
      lor_sixteen_mul_add _ _ (by omega)]
  have hlist : writeOptHeader (id - prev) v.length ++ v ++ rest =
      (16 * (extendOpt (id - prev)).1 + (extendOpt v.length).1) ::
        (writeExt (extendOpt (id - prev)).1 (extendOpt (id - prev)).2 ++
          (writeExt (extendOpt v.length).1 (extendOpt v.length).2 ++ (v ++ rest))) := by
    rw [← hbyte]
    simp [writeOptHeader]
  rw [hlist]
  simp only [parseOptions]
  rw [if_neg (by omega)]
  have hsh : (16 * (extendOpt (id - prev)).1 + (extendOpt v.length).1) >>> 4 =
      (extendOpt (id - prev)).1 := by
    rw [shiftRight_four_eq_div]
    omega
  have han : (16 * (extendOpt (id - prev)).1 + (extendOpt v.length).1) &&& 15 =
      (extendOpt v.length).1 := by
    rw [and_fifteen_eq_mod]
    omega
  rw [hsh, han, if_neg (by omega)]
  rw [parseExtOpt_writeExt (id - prev) hdlt]
  dsimp only
  rw [parseExtOpt_writeExt v.length hvlt]
  dsimp only
  rw [if_neg (by rw [List.length_append]; omega)]
  rw [show (prev + (id - prev)) % 65536 = id by omega]
  rw [List.take_left, List.drop_left]
  unfold lenOkb at hlen
  split
  · rename_i mn mx hdef
    rw [hdef] at hlen
    simp only [Bool.and_eq_true, decide_eq_true_eq] at hlen
    rw [if_neg (by omega)]
  · rfl

theorem writeOptHeader_length_pos (d l : Nat) : 0 < (writeOptHeader d l).length := by
  simp [writeOptHeader]

/-- The option loop across a whole encoded pair list: it consumes the
encoded options, folds the adds, and continues on the remaining bytes
with the last id as the running option number. -/
theorem parseOptions_encodePairs (ps : List (Nat × List Nat)) :
    ∀ (fuel prev : Nat) (acc : CoapOptions) (tail : List Nat),
    chainOk prev ps → (encodePairs prev ps ++ tail).length ≤ fuel →
    parseOptions fuel prev acc (encodePairs prev ps ++ tail) =
      parseOptions (fuel - ps.length) (lastIdFrom prev ps) (addAll acc ps) tail := by
  induction ps with
  | nil =>
    intro fuel prev acc tail _ _
    simp [encodePairs, lastIdFrom, addAll]
  | cons p rest ih =>
    obtain ⟨id, v⟩ := p
    intro fuel prev acc tail hchain hfuel
    obtain ⟨hple, hid, hlen, hchain2⟩ := hchain
    have hW := writeOptHeader_length_pos (id - prev) v.length
    match fuel with
    | 0 =>
      exfalso
      rw [encodePairs] at hfuel
      simp only [List.length_append, Nat.le_zero] at hfuel
      omega
    | f + 1 =>
      rw [show encodePairs prev ((id, v) :: rest) ++ tail =
          writeOptHeader (id - prev) v.length ++ v ++ (encodePairs id rest ++ tail) by
        rw [encodePairs]
        simp [List.append_assoc]]
      rw [parseOptions_step f prev id v acc (encodePairs id rest ++ tail) hple hid hlen]
      rw [ih f id (addOpt acc id v) tail hchain2 (by
        rw [encodePairs] at hfuel
        simp only [List.length_append] at hfuel ⊢
        omega)]
      rw [show (f - rest.length) = (f + 1 - ((id, v) :: rest).length) by simp]
      rfl

theorem chainOk_mono (ps : List (Nat × List Nat)) {p q : Nat} (hqp : q ≤ p)
    (h : chainOk p ps) : chainOk q ps := by
  cases ps with
  | nil => trivial
  | cons hd tl =>
    obtain ⟨id, v⟩ := hd
    obtain ⟨h1, h2, h3, h4⟩ := h
    exact ⟨le_trans hqp h1, h2, h3, h4⟩

theorem chainOk_append_group (vs : List (List Nat)) :
    ∀ (id prev : Nat) (qs : List (Nat × List Nat)),
    prev ≤ id → id < 65536 → (∀ v ∈ vs, lenOkb id v = true) → chainOk id qs →
    chainOk prev (vs.map (fun v => (id, v)) ++ qs) := by
  induction vs with
  | nil =>
    intro id prev qs h1 _ _ h4
    exact chainOk_mono qs h1 h4
  | cons v vs ihv =>
    intro id prev qs h1 h2 h3 h4
    show chainOk prev ((id, v) :: (vs.map (fun v => (id, v)) ++ qs))
    exact ⟨h1, h2, h3 v (by simp),
      ihv id id qs le_rfl h2 (fun w hw => h3 w (by simp [hw])) h4⟩

theorem chainOk_flattenOpts (opts : CoapOptions) :
    ∀ prev : Nat,
    List.Pairwise (fun a b => a.1 < b.1) opts →
    (∀ p ∈ opts, prev ≤ p.1) →
    (∀ p ∈ opts, p.1 < 65536 ∧ ∀ v ∈ p.2, lenOkb p.1 v = true) →
    chainOk prev (flattenOpts opts) := by
  induction opts with
  | nil =>
    intro prev _ _ _
    trivial
  | cons p rest ihp =>
    obtain ⟨id, vs⟩ := p
    intro prev hpw hlow hall
    obtain ⟨hhead, htail⟩ := List.pairwise_cons.mp hpw
    rw [show flattenOpts ((id, vs) :: rest) =
        vs.map (fun v => (id, v)) ++ flattenOpts rest by simp [flattenOpts]]
    apply chainOk_append_group
    · exact hlow (id, vs) (by simp)
    · exact (hall (id, vs) (by simp)).1
    · exact (hall (id, vs) (by simp)).2
    · exact ihp id htail
        (fun q hq => le_of_lt (hhead q hq))
        (fun q hq => hall q (by simp [hq]))

theorem addOpt_append_new (acc : CoapOptions) :
    ∀ (id : Nat) (v : List Nat), (∀ p ∈ acc, p.1 < id) →
    addOpt acc id v = acc ++ [(id, [v])] := by
  induction acc with
  | nil =>
    intro id v _
    rfl
  | cons q rest ihq =>
    obtain ⟨k, vs⟩ := q
    intro id v h
    have hk : k < id := h (k, vs) (by simp)
    show addOpt ((k, vs) :: rest) id v = _
    rw [addOpt, if_neg (by omega), if_neg (by omega),
      ihq id v (fun p hp => h p (by simp [hp]))]
    rfl

theorem addOpt_append_last (acc : CoapOptions) :
    ∀ (id : Nat) (vs0 : List (List Nat)) (v : List Nat), (∀ p ∈ acc, p.1 < id) →
    addOpt (acc ++ [(id, vs0)]) id v = acc ++ [(id, vs0 ++ [v])] := by
  induction acc with
  | nil =>
    intro id vs0 v _
    show addOpt [(id, vs0)] id v = _
    rw [addOpt, if_pos rfl]
    rfl
  | cons q rest ihq =>
    obtain ⟨k, vs⟩ := q
    intro id vs0 v h
    have hk : k < id := h (k, vs) (by simp)
    show addOpt ((k, vs) :: (rest ++ [(id, vs0)])) id v = _
    rw [addOpt, if_neg (by omega), if_neg (by omega),
      ihq id vs0 v (fun p hp => h p (by simp [hp]))]
    rfl

theorem addAll_group (vs : List (List Nat)) :
    ∀ (acc : CoapOptions) (id : Nat) (vs0 : List (List Nat)), (∀ p ∈ acc, p.1 < id) →
    addAll (acc ++ [(id, vs0)]) (vs.map (fun v => (id, v))) = acc ++ [(id, vs0 ++ vs)] := by
  induction vs with
  | nil =>
    intro acc id vs0 _
    simp [addAll]
  | cons v vs ihv =>
    intro acc id vs0 h
    show addAll (addOpt (acc ++ [(id, vs0)]) id v) (vs.map (fun v => (id, v))) = _
    rw [addOpt_append_last acc id vs0 v h, ihv acc id (vs0 ++ [v]) h]
    simp

theorem addAll_append (ps : List (Nat × List Nat)) :
    ∀ (qs : List (Nat × List Nat)) (acc : CoapOptions),
    addAll acc (ps ++ qs) = addAll (addAll acc ps) qs := by
  induction ps with
  | nil =>
    intro qs acc
    rfl
  | cons p ps ihp =>
    obtain ⟨id, v⟩ := p
    intro qs acc
    show addAll (addOpt acc id v) (ps ++ qs) = _
    rw [ihp qs (addOpt acc id v)]
    rfl

theorem addAll_flattenOpts (opts : CoapOptions) :
    ∀ (acc : CoapOptions),
    List.Pairwise (fun a b => a.1 < b.1) opts →
    (∀ p ∈ opts, p.2 ≠ []) →
    (∀ a ∈ acc, ∀ p ∈ opts, a.1 < p.1) →
    addAll acc (flattenOpts opts) = acc ++ opts := by
  induction opts with
  | nil =>
    intro acc _ _ _
    simp [flattenOpts, addAll]
  | cons p rest ihp =>
    obtain ⟨id, vs⟩ := p
    intro acc hpw hne hacc
    obtain ⟨hhead, htail⟩ := List.pairwise_cons.mp hpw
    obtain ⟨v, vs', rfl⟩ : ∃ v vs', vs = v :: vs' := by
      cases vs with
      | nil => exact absurd rfl (hne (id, []) (by simp))
      | cons v vs' => exact ⟨v, vs', rfl⟩
    rw [show flattenOpts ((id, v :: vs') :: rest) =
        (id, v) :: (vs'.map (fun w => (id, w)) ++ flattenOpts rest) by simp [flattenOpts]]
    show addAll (addOpt acc id v) (vs'.map (fun w => (id, w)) ++ flattenOpts rest) = _
    rw [addOpt_append_new acc id v (fun p hp => hacc p hp (id, v :: vs') (by simp)),
      addAll_append, addAll_group vs' acc id [v]
        (fun p hp => hacc p hp (id, v :: vs') (by simp)),
      show ([v] ++ vs' : List (List Nat)) = v :: vs' from rfl,
      ihp (acc ++ [(id, v :: vs')]) htail (fun p hp => hne p (by simp [hp])) (by
        intro a ha p hp
        rcases List.mem_append.mp ha with h1 | h2
        · exact hacc a h1 p (by simp [hp])
        · simp at h2
          rw [h2]
          exact hhead p hp)]
    simp

theorem encodePairs_length_ge (ps : List (Nat × List Nat)) :
    ∀ prev : Nat, ps.length ≤ (encodePairs prev ps).length := by
  induction ps with
  | nil => intro prev; simp [encodePairs]
  | cons p rest ihp =>
    obtain ⟨id, v⟩ := p
    intro prev
    rw [encodePairs]
    have hW := writeOptHeader_length_pos (id - prev) v.length
    have := ihp id
    simp only [List.length_append, List.length_cons]
    omega

/-- Claim C1: for every message satisfying the data model invariants,
parsing the bytes produced by MustMarshalBinary returns exactly the
message: same type, code, message id, token and payload, and the same
option values per option number in the same order. -/
theorem claim_C1 (m : Msg) (h : msgValid m) :
    parseMessage (mustMarshalBinary m) = .ok m := by
  obtain ⟨mt, mc, mi, mtk, mo, mp⟩ := m
  obtain ⟨htype, hcode, hmid, htok, hpw, hopts⟩ := h
  dsimp only at htype hcode hmid htok hpw hopts
  have hb0 : (1 <<< 6) ||| ((mt % 256) <<< 4) % 256 ||| (mtk.length &&& 15) =
      64 + 16 * mt + mtk.length := by
    rw [Nat.mod_eq_of_lt (show mt < 256 by omega), Nat.shiftLeft_eq mt 4,
      Nat.mod_eq_of_lt (show mt * 2 ^ 4 < 256 by omega),
      and_fifteen_eq_mod, Nat.mod_eq_of_lt (show mtk.length < 16 by omega),
      shiftLeft_lor_eq_add 1 (mt * 2 ^ 4) 6 (by omega),
      show (1 : Nat) <<< 6 + mt * 2 ^ 4 = (4 + mt) <<< 4 by
        rw [Nat.shiftLeft_eq, Nat.shiftLeft_eq]
        ring_nf,
      lor_sixteen_mul_add (4 + mt) mtk.length (by omega)]
    ring
  rw [show mustMarshalBinary ⟨mt, mc, mi, mtk, mo, mp⟩ =
      (64 + 16 * mt + mtk.length) :: mc :: (mi >>> 8) :: (mi % 256) ::
        (mtk ++
          (encodePairs 0 (flattenOpts mo) ++
            (if mp.isEmpty then [] else 255 :: mp))) by
    rw [mustMarshalBinary]
    dsimp only
    rw [hb0, Nat.mod_eq_of_lt hcode, Nat.mod_eq_of_lt hmid, List.append_assoc]]
  simp only [parseMessage]
  rw [if_neg (show ¬(64 + 16 * mt + mtk.length) >>> 6 ≠ 1 by
    rw [shiftRight_six_eq_div]
    omega)]
  have hand : (64 + 16 * mt + mtk.length) &&& 15 = mtk.length := by
    rw [and_fifteen_eq_mod]
    omega
  have hmtype : (64 + 16 * mt + mtk.length) >>> 4 &&& 3 = mt := by
    rw [shiftRight_four_eq_div, and_three_eq_mod]
    omega
  rw [hand, hmtype, if_neg (by omega),
    if_neg (show ¬(mtk ++ _).length < mtk.length by
      rw [List.length_append]
      omega),
    List.take_left, List.drop_left]
  have hchain : chainOk 0 (flattenOpts mo) :=
    chainOk_flattenOpts mo 0 hpw (fun p _ => Nat.zero_le _)
      (fun p hp => ⟨(hopts p hp).1, (hopts p hp).2.2⟩)
  rw [parseOptions_encodePairs (flattenOpts mo) _ 0 [] _ hchain le_rfl]
  rw [addAll_flattenOpts mo [] hpw (fun p hp => (hopts p hp).2.1)
    (fun a ha => absurd ha (List.not_mem_nil a))]
  rw [List.nil_append]
  have hmsgid : (mi >>> 8) <<< 8 ||| mi % 256 = mi := by
    rw [shiftRight_eight_eq_div, lor_two_fifty_six_mul_add _ _ (by omega)]
    omega
  by_cases hpay : mp.isEmpty
  · have hp0 : mp = [] := List.isEmpty_iff.mp hpay
    subst hp0
    rw [if_pos (by rfl)]
    simp only [parseOptions]
    rw [hmsgid]
  · rw [if_neg hpay]
    have hge := encodePairs_length_ge (flattenOpts mo) 0
    obtain ⟨k, hk⟩ : ∃ k,
        (encodePairs 0 (flattenOpts mo) ++ (255 :: mp)).length -
          (flattenOpts mo).length = k + 1 := by
      refine ⟨(encodePairs 0 (flattenOpts mo) ++ (255 :: mp)).length -
        (flattenOpts mo).length - 1, ?_⟩
      rw [List.length_append, List.length_cons]
      omega
    rw [hk]
    simp only [parseOptions]
    rw [if_true, if_neg hpay, hmsgid]


theorem claim_C1_witness :
    msgValid ⟨0, 1, 4660, [1, 2], [(11, [[102, 111, 111]]), (12, [[1, 2]])], [104, 105]⟩ ∧
    parseMessage (mustMarshalBinary
        ⟨0, 1, 4660, [1, 2], [(11, [[102, 111, 111]]), (12, [[1, 2]])], [104, 105]⟩) =
      .ok ⟨0, 1, 4660, [1, 2], [(11, [[102, 111, 111]]), (12, [[1, 2]])], [104, 105]⟩ :=
  ⟨by decide, claim_C1 _ (by decide)⟩

end CoapGo.coapmsg

namespace CoapGo.coap

open CoapGo.coapmsg

/-! ## Helper lemmas about the round-trip tail -/

theorem finishRT_sent (req : Msg) (o : Option Msg) (sent : List Msg)
    (reads : List RTimeout) : (finishRT req o sent reads).sent = sent := by
  unfold finishRT
  split
  · cases o with
    | none => rfl
    | some r =>
      dsimp only
      split <;> split <;> rfl
  · cases o with
    | none => rfl
    | some r =>
      dsimp only
      split <;> rfl

theorem finishRT_reads (req : Msg) (o : Option Msg) (sent : List Msg)
    (reads : List RTimeout) : (finishRT req o sent reads).reads = reads := by
  unfold finishRT
  split
  · cases o with
    | none => rfl
    | some r =>
      dsimp only
      split <;> split <;> rfl
  · cases o with
    | none => rfl
    | some r =>
      dsimp only
      split <;> rfl

theorem finishRT_result_ok (req r : Msg) (sent : List Msg) (reads : List RTimeout)
    (h : req.token = r.token) :
    (finishRT req (some r) sent reads).result = .ok r := by
  unfold finishRT
  split
  · dsimp only
    split <;> simp [h]
  · dsimp only
    simp [h]

theorem finishRT_result_ok_some (req : Msg) (o : Option Msg) (sent : List Msg)
    (reads : List RTimeout) (r : Msg)
    (h : (finishRT req o sent reads).result = .ok r) : o = some r := by
  unfold finishRT at h
  split at h
  · cases o with
    | none => simp at h
    | some r' =>
      dsimp only at h
      split at h
      · split at h
        · cases h; rfl
        · simp at h
      · split at h
        · cases h; rfl
        · simp at h
  · cases o with
    | none => simp at h
    | some r' =>
      dsimp only at h
      split at h
      · cases h; rfl
      · simp at h

theorem finishRT_pump_some (req r : Msg) (sent : List Msg) (reads : List RTimeout) :
    ((finishRT req (some r) sent reads).pumpSpawned = true ↔
      (optAsUInt8 req.options Observe = 0 ∧ optIsSet r.options Observe = true)) := by
  unfold finishRT
  split
  · rename_i hobs
    dsimp only
    split
    · rename_i hset
      split <;> simp [hobs, hset]
    · rename_i hset
      split <;> simp [hobs, hset]
  · rename_i hobs
    dsimp only
    split <;> simp [hobs]

theorem finishRT_ok_pump (req : Msg) (o : Option Msg) (sent : List Msg)
    (reads : List RTimeout) (r : Msg)
    (h : (finishRT req o sent reads).result = .ok r) :
    ((finishRT req o sent reads).pumpSpawned = true ↔
      (optAsUInt8 req.options Observe = 0 ∧ optIsSet r.options Observe = true)) := by
  have ho := finishRT_result_ok_some req o sent reads r h
  subst ho
  exact finishRT_pump_some req r sent reads

/-- Every run of RoundTrip either ends in one of the tail branches
through finishRT, or ends early with no pump and no ok result. -/
theorem roundTrip_cases (req : Msg) (inbox : List Msg) :
    (∃ (o : Option Msg) (sent : List Msg) (reads : List RTimeout),
      roundTrip req inbox = finishRT req o sent reads) ∨
    ((roundTrip req inbox).pumpSpawned = false ∧
      ∀ r, (roundTrip req inbox).result ≠ .ok r) := by
  unfold roundTrip
  split
  · split
    · right
      exact ⟨rfl, fun r hr => by simp at hr⟩
    · split
      · right
        exact ⟨rfl, fun r hr => by simp at hr⟩
      · split
        · right
          exact ⟨rfl, fun r hr => by simp at hr⟩
        · split
          · split
            · right
              exact ⟨rfl, fun r hr => by simp at hr⟩
            · split
              · right
                exact ⟨rfl, fun r hr => by simp at hr⟩
              · split
                · exact Or.inl ⟨_, _, _, rfl⟩
                · exact Or.inl ⟨_, _, _, rfl⟩
          · exact Or.inl ⟨_, _, _, rfl⟩
  · split
    · split
      · right
        exact ⟨rfl, fun r hr => by simp at hr⟩
      · split
        · right
          exact ⟨rfl, fun r hr => by simp at hr⟩
        · split
          · right
            exact ⟨rfl, fun r hr => by simp at hr⟩
          · exact Or.inl ⟨_, _, _, rfl⟩
    · right
      exact ⟨rfl, fun r hr => by simp at hr⟩

/-! ## Claim C3 -/

/-- Claim C3 is the specified behaviour, but the NonConfirmable branch
of RoundTrip binds its reply to a shadowing local variable: for every
NON request whose single read yields a NON reply with matching message
id, the function falls through with a nil outer response and panics on
a nil-pointer dereference in the observe detection or in validateToken
instead of returning the reply. -/
theorem claim_C3 (req res : Msg) (hreq : req.type_ = NonConfirmable)
    (hid : req.messageID = res.messageID) (hres : res.type_ = NonConfirmable) :
    (roundTrip req [res]).result = .panicked := by
  unfold roundTrip
  rw [if_neg (by rw [hreq]; decide), if_pos hreq]
  dsimp only
  rw [if_neg (by rw [hid]; simp), if_neg (by rw [hres]; simp)]
  unfold finishRT
  split <;> rfl

theorem claim_C3_witness :
    (roundTrip ⟨1, 1, 7, [1], [], []⟩ [⟨1, 69, 7, [1], [], []⟩]).result = .panicked :=
  claim_C3 ⟨1, 1, 7, [1], [], []⟩ ⟨1, 69, 7, [1], [], []⟩ rfl rfl rfl

/-! ## Claim C4 -/

/-- Claim C4 counterexample: a round trip whose request carries no
Observe option at all (its option map is empty) and whose piggybacked
response carries Observe still spawns the observe pump, because a
missing option reads as 0 through Option.AsUInt8. -/
theorem claim_C4_counterexample :
    (roundTrip ⟨0, 1, 1, [1], [], []⟩ [⟨2, 69, 1, [1], [(6, [[1]])], []⟩]).result =
      .ok ⟨2, 69, 1, [1], [(6, [[1]])], []⟩ ∧
    getOpt (Msg.options ⟨0, 1, 1, [1], [], []⟩) Observe = [] ∧
    (roundTrip ⟨0, 1, 1, [1], [], []⟩ [⟨2, 69, 1, [1], [(6, [[1]])], []⟩]).pumpSpawned = true :=
  ⟨rfl, rfl, rfl⟩

/-- Claim C4 (amended): after a successful round trip the observe pump
is spawned if and only if the request's Observe option reads as 0
through Option.AsUInt8 - which also holds when the option is absent or
its value empty - and the response carries the Observe option. -/
theorem claim_C4_amended (req : Msg) (inbox : List Msg) (r : Msg)
    (h : (roundTrip req inbox).result = .ok r) :
    ((roundTrip req inbox).pumpSpawned = true ↔
      (optAsUInt8 req.options Observe = 0 ∧ optIsSet r.options Observe = true)) := by
  rcases roundTrip_cases req inbox with ⟨o, sent, reads, heq⟩ | ⟨_, hnever⟩
  · rw [heq] at h ⊢
    exact finishRT_ok_pump _ _ _ _ _ h
  · exact absurd h (hnever r)

theorem claim_C4_amended_witness :
    (roundTrip ⟨0, 1, 1, [1], [(6, [[]])], []⟩ [⟨2, 69, 1, [1], [(6, [[1]])], []⟩]).result =
      .ok ⟨2, 69, 1, [1], [(6, [[1]])], []⟩ ∧
    ((roundTrip ⟨0, 1, 1, [1], [(6, [[]])], []⟩
        [⟨2, 69, 1, [1], [(6, [[1]])], []⟩]).pumpSpawned = true ↔
      (optAsUInt8 (Msg.options ⟨0, 1, 1, [1], [(6, [[]])], []⟩) Observe = 0 ∧
        optIsSet (Msg.options ⟨2, 69, 1, [1], [(6, [[1]])], []⟩) Observe = true)) :=
  ⟨rfl, claim_C4_amended ⟨0, 1, 1, [1], [(6, [[]])], []⟩ [⟨2, 69, 1, [1], [(6, [[1]])], []⟩]
    ⟨2, 69, 1, [1], [(6, [[1]])], []⟩ rfl⟩

/-! ## Claim C6 -/

/-- Claim C6: in a Confirmable round trip whose first reply is an ACK
with code Empty and matching message id, RoundTrip performs exactly one
further read, under the postponed-response timeout; the result is an
error unless that second message is CON or NON; and when it is CON the
messages sent through the Connection are exactly the request followed
by an ACK carrying the second message's id, the Empty code and no
token, after which the second message is returned whenever its token
matches the request. -/
theorem claim_C6 (req ack m2 : Msg) (rest : List Msg)
    (hreq : req.type_ = Confirmable)
    (hackT : ack.type_ = Acknowledgement)
    (hackC : ack.code = coapmsg.Empty)
    (hackId : ack.messageID = req.messageID) :
    (roundTrip req (ack :: m2 :: rest)).reads = [.ackTimeout, .postponedResponse] ∧
    (m2.type_ ≠ Confirmable → m2.type_ ≠ NonConfirmable →
      (roundTrip req (ack :: m2 :: rest)).result = .err .expectedConOrNon) ∧
    (m2.type_ = Confirmable →
      (roundTrip req (ack :: m2 :: rest)).sent =
        [req, ⟨Acknowledgement, coapmsg.Empty, m2.messageID, [], [], []⟩] ∧
      (m2.token = req.token → (roundTrip req (ack :: m2 :: rest)).result = .ok m2)) := by
  have hstep : roundTrip req (ack :: m2 :: rest) =
      if m2.type_ ≠ Confirmable ∧ m2.type_ ≠ NonConfirmable then
        ⟨.err .expectedConOrNon, [req], [.ackTimeout, .postponedResponse], false⟩
      else if m2.type_ = Confirmable then
        finishRT req (some m2) ([req] ++ [newAck m2.messageID])
          [.ackTimeout, .postponedResponse]
      else
        finishRT req (some m2) [req] [.ackTimeout, .postponedResponse] := by
    unfold roundTrip
    rw [if_pos hreq]
    dsimp only
    rw [if_neg (by rw [hackId]; simp), if_neg (by rw [hackT]; simp), if_pos hackC]
  refine ⟨?_, ?_, ?_⟩
  · rw [hstep]
    split
    · rfl
    · split <;> rw [finishRT_reads]
  · intro hcon hnon
    rw [hstep, if_pos ⟨hcon, hnon⟩]
  · intro hcon
    rw [hstep, if_neg (by simp [hcon]), if_pos hcon]
    constructor
    · rw [finishRT_sent]
      rfl
    · intro htok
      exact finishRT_result_ok _ _ _ _ htok.symm

theorem claim_C6_witness :
    (roundTrip ⟨0, 1, 5, [9], [], []⟩
        [⟨2, 0, 5, [], [], []⟩, ⟨0, 69, 77, [9], [], [49]⟩]).reads =
      [.ackTimeout, .postponedResponse] ∧
    (Msg.type_ ⟨0, 69, 77, [9], [], [49]⟩ ≠ Confirmable →
      Msg.type_ ⟨0, 69, 77, [9], [], [49]⟩ ≠ NonConfirmable →
      (roundTrip ⟨0, 1, 5, [9], [], []⟩
          [⟨2, 0, 5, [], [], []⟩, ⟨0, 69, 77, [9], [], [49]⟩]).result =
        .err .expectedConOrNon) ∧
    (Msg.type_ ⟨0, 69, 77, [9], [], [49]⟩ = Confirmable →
      (roundTrip ⟨0, 1, 5, [9], [], []⟩
          [⟨2, 0, 5, [], [], []⟩, ⟨0, 69, 77, [9], [], [49]⟩]).sent =
        [⟨0, 1, 5, [9], [], []⟩, ⟨Acknowledgement, coapmsg.Empty, 77, [], [], []⟩] ∧
      (Msg.token ⟨0, 69, 77, [9], [], [49]⟩ = Msg.token ⟨0, 1, 5, [9], [], []⟩ →
        (roundTrip ⟨0, 1, 5, [9], [], []⟩
            [⟨2, 0, 5, [], [], []⟩, ⟨0, 69, 77, [9], [], [49]⟩]).result =
          .ok ⟨0, 69, 77, [9], [], [49]⟩)) :=
  claim_C6 ⟨0, 1, 5, [9], [], []⟩ ⟨2, 0, 5, [], [], []⟩ ⟨0, 69, 77, [9], [], [49]⟩ []
    rfl rfl rfl rfl

/-! ## Claim C2 -/

/-- Claim C2 counterexample: a packet that fails to decode makes the
receive loop return at once - the following well-formed packet, which
alone would be delivered to the matching interaction, is never
processed - and the UART loop variant additionally closes the
connection. -/
theorem claim_C2_counterexample :
    receiveLoop [⟨[1], 1⟩] [[1, 2, 3], [0x51, 69, 0, 1, 1]] = ⟨[], [], true, false⟩ ∧
    receiveLoop [⟨[1], 1⟩] [[0x51, 69, 0, 1, 1]] =
      ⟨[(0, ⟨1, 69, 1, [1], [], []⟩)], [], false, false⟩ ∧
    startReceiveLoop [⟨[1], 1⟩] [[1, 2, 3], [0x51, 69, 0, 1, 1]] = ⟨[], [], true, true⟩ :=
  ⟨rfl, rfl, rfl⟩

/-- Claim C2 (amended): a received packet that fails to decode is
logged and makes the receive loop return immediately, delivering and
sending nothing further; the connection_uart variant of the loop also
closes the connection.  Only empty packets are skipped. -/
theorem claim_C2_amended (ias : List IAState) (p : List Nat) (rest : List (List Nat))
    (e : CoapErr) (hne : p ≠ []) (hp : parseMessage p = .error e) :
    receiveLoop ias (p :: rest) = ⟨[], [], true, false⟩ ∧
    startReceiveLoop ias (p :: rest) = ⟨[], [], true, true⟩ := by
  have hemp : p.isEmpty = false := by
    cases p with
    | nil => exact absurd rfl hne
    | cons a l => rfl
  constructor
  · unfold receiveLoop
    rw [hemp]
    simp only [Bool.false_eq_true, if_false, hp]
  · unfold startReceiveLoop
    rw [hemp]
    simp only [Bool.false_eq_true, if_false, hp]

theorem claim_C2_witness :
    receiveLoop [] [[1, 2, 3]] = ⟨[], [], true, false⟩ ∧
    startReceiveLoop [] [[1, 2, 3]] = ⟨[], [], true, true⟩ :=
  claim_C2_amended [] [1, 2, 3] [] .shortPacket (by decide) rfl

/-! ## Claim C7 -/

/-- Claim C7 counterexample: an inbound message with an empty token and
message id 5 against a single registered interaction whose token is
empty and whose last message id is 7.  Under the claim's matching
criterion the message matches nothing (no interaction with an equal
non-empty token, no interaction with last message id 5), so an RST
should be sent; but FindInteraction matches the interaction by plain
token equality of the two empty tokens, so the message is delivered and
no RST is sent. -/
theorem claim_C7_counterexample :
    parseMessage [80, 69, 0, 5] = .ok ⟨1, 69, 5, [], [], []⟩ ∧
    (IAState.token ⟨[], 7⟩ = [] ∧ IAState.lastMessageId ⟨[], 7⟩ ≠ 5) ∧
    receiveLoop [⟨[], 7⟩] [[80, 69, 0, 5]] =
      ⟨[(0, ⟨1, 69, 5, [], [], []⟩)], [], false, false⟩ :=
  ⟨rfl, ⟨rfl, by decide⟩, rfl⟩

theorem findInteractionFrom_none (token : List Nat) (msgId : Nat) :
    ∀ (ias : List IAState) (i : Nat),
    (∀ ia ∈ ias, ia.token ≠ token ∧ ¬(token = [] ∧ ia.lastMessageId = msgId)) →
    findInteractionFrom i ias token msgId = none := by
  intro ias
  induction ias with
  | nil => intro i _; rfl
  | cons ia rest ih =>
    intro i h
    obtain ⟨h1, h2⟩ := h ia (by simp)
    unfold findInteractionFrom
    rw [if_neg h1, if_neg h2]
    exact ih (i + 1) (fun x hx => h x (by simp [hx]))

/-- Claim C7 (amended): an inbound message matches an interaction by
token byte-equality - including the case of two empty tokens - or, when
the message token is empty, by the interaction's last message id; when
no registered interaction matches in either way, the receive loop sends
a RST of code 0.00 carrying the offending message id and delivers the
message to no interaction. -/
theorem claim_C7_amended (ias : List IAState) (pkt : List Nat) (msg : Msg)
    (hparse : parseMessage pkt = .ok msg)
    (hnomatch : ∀ ia ∈ ias,
      ia.token ≠ msg.token ∧ ¬(msg.token = [] ∧ ia.lastMessageId = msg.messageID)) :
    receiveLoop ias [pkt] =
      ⟨[], [⟨Reset, coapmsg.Empty, msg.messageID, [], [], []⟩], false, false⟩ := by
  have hne : pkt.isEmpty = false := by
    cases pkt with
    | nil => simp [parseMessage] at hparse
    | cons a l => rfl
  unfold receiveLoop
  rw [hne]
  simp only [Bool.false_eq_true, if_false, hparse]
  rw [show findInteraction ias msg.token msg.messageID = none from
    findInteractionFrom_none msg.token msg.messageID ias 0 hnomatch]
  rfl

theorem claim_C7_witness :
    receiveLoop [⟨[1], 1⟩] [[80, 69, 0, 5]] =
      ⟨[], [⟨Reset, coapmsg.Empty, 5, [], [], []⟩], false, false⟩ :=
  claim_C7_amended [⟨[1], 1⟩] [80, 69, 0, 5] ⟨1, 69, 5, [], [], []⟩ rfl
    (by intro ia hia; simp at hia; subst hia; exact ⟨by decide, by decide⟩)

/-! ## Claim C8 -/

theorem genStateAfter_eq (n : Nat) : genStateAfter n = n % 256 := by
  induction n with
  | zero => rfl
  | succ k ih =>
    unfold genStateAfter
    rw [ih]
    omega

/-- Claim C8 counterexample: because the sequence counter is a uint8,
call 0 and call 256 of the generator carry the same counter byte, so
with identical random bytes they return identical tokens even though
the calls are distinct. -/
theorem claim_C8_counterexample :
    tokenOfCall 0 9 9 9 = tokenOfCall 256 9 9 9 ∧ (0 : Nat) ≠ 256 := by
  constructor
  · show [1, 9, 9, 9] = (nextToken (genStateAfter 256) 9 9 9).1
    rw [genStateAfter_eq]
    decide
  · decide

/-- Claim C8 (amended): every token of the random generator is 4 bytes
long with byte 0 the incremented sequence counter reduced modulo 256;
two calls whose indices differ modulo 256 return distinct tokens even
if the random source produces identical bytes. -/
theorem claim_C8_amended (i j r1 r2 r3 s1 s2 s3 : Nat) (h : i % 256 ≠ j % 256) :
    (tokenOfCall i r1 r2 r3).length = 4 ∧
    (tokenOfCall i r1 r2 r3).headD 0 = (i + 1) % 256 ∧
    tokenOfCall i r1 r2 r3 ≠ tokenOfCall j s1 s2 s3 := by
  refine ⟨rfl, ?_, ?_⟩
  · show (genStateAfter i + 1) % 256 = (i + 1) % 256
    rw [genStateAfter_eq]
    omega
  · show [(genStateAfter i + 1) % 256, r1, r2, r3] ≠ [(genStateAfter j + 1) % 256, s1, s2, s3]
    rw [genStateAfter_eq, genStateAfter_eq]
    intro heq
    have hb : (i % 256 + 1) % 256 = (j % 256 + 1) % 256 := (List.cons.injEq _ _ _ _).mp heq |>.1
    omega

theorem claim_C8_witness :
    (tokenOfCall 0 9 9 9).length = 4 ∧
    (tokenOfCall 0 9 9 9).headD 0 = (0 + 1) % 256 ∧
    tokenOfCall 0 9 9 9 ≠ tokenOfCall 1 9 9 9 :=
  claim_C8_amended 0 1 9 9 9 9 9 9 (by decide)

end CoapGo.coap
